import Mathlib

/-!
# sing-geoip-ipinfo: the transcoding pipeline of `main.go`

A shallow embedding of `parse`, `newWriter`, `open`, `write` and the trie and
rule-set parts of `release`, with the properties of the label resolver, the
network aggregator, the write-time label filter, the rule-set construction and
the vocabulary handling.

Conventions of the embedding.

* A Go `map[string]V` is an association list with distinct keys (`GoMap V`).
  `for k := range m` visits the keys in an order the language leaves open: every
  such loop takes the visiting order as an explicit list of keys, and the
  theorems quantify over all orders that are a permutation of the key list.
* Calls into libraries (`strings.ToLower`, the `maxminddb` record decoder,
  `(*net.IPNet).String`, the verdicts of the `mmdbwriter` constructor, loader
  and inserter, the file system) are parameters of the definitions that make
  them, so that the general theorems hold for whatever those calls do. The
  concrete instances `asciiToLower` and `decodeStruct` are used to evaluate the
  program on examples.
* A `mmdbwriter.Tree` is the options it was made with and the sequence of
  `Insert` calls that succeeded on it; a file written is the value serialized.
* `error` values are strings; a Go `(value, error)` result is an `Except`, or a
  pair with an `Option Error` where the code keeps the value on error.
-/

namespace SingGeoip

/-- Go `error`, carried as its message. -/
abbrev Error := String

/-! ## Go maps -/

/-- Go `map[string]V`: an association list. `make` is `[]`; all maps built by
`GoMap.set` from `[]` have distinct keys. -/
abbrev GoMap (V : Type) := List (String × V)

namespace GoMap

variable {V : Type}

/-- The keys of the map, in storage order. -/
def keys (m : GoMap V) : List String := m.map (fun kv => kv.1)

/-- Map read `m[k]`: the stored value, or the zero value `zero` of the element
type when the key is absent. -/
def index (m : GoMap V) (k : String) (zero : V) : V :=
  match m with
  | [] => zero
  | (k', v) :: rest => if k' = k then v else index rest k zero

/-- Map write `m[k] = v`. -/
def set (m : GoMap V) (k : String) (v : V) : GoMap V :=
  match m with
  | [] => [(k, v)]
  | (k', v') :: rest => if k' = k then (k, v) :: rest else (k', v') :: set rest k v

/-- The statement `for k, v := range m` when the runtime visits the keys in the
order `order`: the sequence of `(k, v)` the loop body sees. -/
def range (m : GoMap V) (order : List String) (zero : V) : List (String × V) :=
  order.map (fun k => (k, m.index k zero))

/-- Number of elements over all the sequences of a map of sequences. -/
def total {N : Type} (m : GoMap (List N)) : Nat := (m.map (fun kv => kv.2.length)).sum

end GoMap

/-! ## The source decoder and the label resolver (`parse`) -/

/-- Struct `IpinfoContry` (main.go:51-56). -/
structure IpinfoContry where
  Continent : String
  ContinentName : String
  Country : String
  CountryName : String
deriving DecidableEq, Repr

/-- Zero value of `IpinfoContry`, what `var country IpinfoContry` holds. -/
def IpinfoContry.zero : IpinfoContry := ⟨"", "", "", ""⟩

/-- The fields of `maxminddb.Metadata` that the program reads. -/
structure Metadata where
  DatabaseType : String
  Languages : List String
  IPVersion : Nat
  RecordSize : Nat
deriving DecidableEq, Repr

/-- Zero value of `maxminddb.Metadata`. -/
def Metadata.zero : Metadata := ⟨"", [], 0, 0⟩

/-- A `maxminddb.Reader` as `parse` uses it: its metadata, the `(network, raw
record)` pairs for which `networks.Next()` is true, in order, and the value of
`networks.Err()` once `Next()` is false. `N` is the type of networks
(`*net.IPNet`), `R` the type of raw data records. -/
structure Reader (N R : Type) where
  Metadata : Metadata
  networks : List (N × R)
  networksErr : Option Error

/-- Lines 73-80 of `parse`: the code chosen for the decoded record, `none` for
the `continue` branch. `ToLower` is `strings.ToLower`. -/
def resolveCode (ToLower : String → String) (country : IpinfoContry) : Option String :=
  if country.Country ≠ "" then
    some (ToLower country.Country)
  else if country.Continent ≠ "" then
    some (ToLower country.Continent)
  else
    none

/-- The loop of `parse` (main.go:68-84), with the loop state passed explicitly:
`country` is the record variable declared once before the loop (line 66) and
handed by reference to every `networks.Network(&country)`; `decode country raw`
is what that call leaves in it for the raw record `raw`, or its error. The
result is the map built so far and the `err` that `parse` returns. -/
def parseLoop {N R : Type} (ToLower : String → String)
    (decode : IpinfoContry → R → Except Error IpinfoContry) :
    IpinfoContry → GoMap (List N) → List (N × R) → Option Error → GoMap (List N) × Option Error
  | _, countryMap, [], networksErr => (countryMap, networksErr)
  | country, countryMap, (ipNet, raw) :: rest, networksErr =>
    match decode country raw with
    | .error e => (countryMap, some e)
    | .ok country =>
      match resolveCode ToLower country with
      | none => parseLoop ToLower decode country countryMap rest networksErr
      | some code =>
        parseLoop ToLower decode country
          (countryMap.set code (countryMap.index code [] ++ [ipNet])) rest networksErr

/-- The three named results of `parse`. -/
structure ParseResult (N : Type) where
  metadata : Metadata
  countryMap : GoMap (List N)
  err : Option Error

/-- Function `parse` (main.go:58-85). The argument `database` is the result of
`maxminddb.FromBytes(binary)`. -/
def parse {N R : Type} (ToLower : String → String)
    (decode : IpinfoContry → R → Except Error IpinfoContry)
    (database : Except Error (Reader N R)) : ParseResult N :=
  match database with
  | .error e => ⟨Metadata.zero, [], some e⟩
  | .ok db =>
    let r := parseLoop ToLower decode IpinfoContry.zero [] db.networks db.networksErr
    ⟨db.Metadata, r.1, r.2⟩

/-- The values the record variable `country` holds after each successful
`networks.Network(&country)` of the loop of `parse`, paired with the network of
that iteration; it stops at the first decoding error, as the loop does. -/
def decodedRecords {N R : Type} (decode : IpinfoContry → R → Except Error IpinfoContry) :
    IpinfoContry → List (N × R) → List (N × IpinfoContry)
  | _, [] => []
  | country, (ipNet, raw) :: rest =>
    match decode country raw with
    | .error _ => []
    | .ok country => (ipNet, country) :: decodedRecords decode country rest

/-- The label resolver as the specification words it: primary field if
non-empty, else secondary field if non-empty, else nothing. -/
def labelReference (lowercase : String → String) (primary secondary : String) : Option String :=
  match primary.isEmpty, secondary.isEmpty with
  | false, _ => some (lowercase primary)
  | true, false => some (lowercase secondary)
  | true, true => none

/-- Lower-casing of ASCII letters, byte for byte what `strings.ToLower` does on
a string of ASCII characters. -/
def asciiToLower (s : String) : String :=
  String.mk (s.data.map (fun c => if 'A' ≤ c ∧ c ≤ 'Z' then Char.ofNat (c.toNat + 32) else c))

/-- A raw data record of the source database: the key/value pairs of its map,
in stored order (the country database stores strings only). -/
abbrev RawRecord := List (String × String)

/-- Assignment of one decoded map entry to the struct field carrying that
`maxminddb:"..."` tag (main.go:52-55); an entry with another key is skipped. -/
def decodeField (country : IpinfoContry) (key value : String) : IpinfoContry :=
  if key = "continent" then { country with Continent := value }
  else if key = "continent_name" then { country with ContinentName := value }
  else if key = "country" then { country with Country := value }
  else if key = "country_name" then { country with CountryName := value }
  else country

/-- What `networks.Network(&country)` of maxminddb-golang v1 leaves in the
struct it is given: its struct decoder walks the entries of the stored map and
assigns each one to the field with that tag; a field whose key is not in the
stored map is not written and keeps the value it had before the call. -/
def decodeStruct (country : IpinfoContry) (raw : RawRecord) : Except Error IpinfoContry :=
  .ok (raw.foldl (fun c kv => decodeField c kv.1 kv.2) country)

/-! ## The trie builder (`newWriter`, `open`, `write`) -/

/-- The inserter functions of `mmdbwriter/inserter` that the program names, and
the unset (nil) value of the option. -/
inductive InserterFunc where
  | unset
  | ReplaceWith
deriving DecidableEq, Repr

/-- The fields of `mmdbwriter.Options` that the program sets; each default is
the Go zero value. -/
structure Options where
  DatabaseType : String := ""
  Languages : List String := []
  IPVersion : Int := 0
  RecordSize : Int := 0
  Inserter : InserterFunc := InserterFunc.unset
  DisableIPv4Aliasing : Bool := false
  IncludeReservedNetworks : Bool := false
deriving DecidableEq, Repr

/-- A `mmdbwriter.Tree` under construction: the options it was made with and
the `(network, label)` arguments of the `Insert` calls that succeeded on it, in
call order. -/
structure Tree (N : Type) where
  opts : Options
  inserted : List (N × String)
deriving DecidableEq, Repr

/-- Conversion `int(x)` of a `uint` on a 64-bit platform. -/
def intOfUint (x : Nat) : Int :=
  if x % 2 ^ 64 < 2 ^ 63 then ((x % 2 ^ 64 : Nat) : Int) else ((x % 2 ^ 64 : Nat) : Int) - 2 ^ 64

/-- The options that `newWriter` passes to `mmdbwriter.New` (main.go:88-96). -/
def newWriterOptions (metadata : Metadata) (codes : List String) : Options :=
  { DatabaseType := "sing-geoip"
    Languages := codes
    IPVersion := intOfUint metadata.IPVersion
    RecordSize := intOfUint metadata.RecordSize
    Inserter := InserterFunc.ReplaceWith
    DisableIPv4Aliasing := true
    IncludeReservedNetworks := true }

/-- Function `newWriter` (main.go:87-97). `newErr opts` is the error with which
`mmdbwriter.New` rejects the options, if it does. -/
def newWriter {N : Type} (newErr : Options → Option Error) (metadata : Metadata)
    (codes : List String) : Except Error (Tree N) :=
  match newErr (newWriterOptions metadata codes) with
  | some e => .error e
  | none => .ok ⟨newWriterOptions metadata codes, []⟩

/-- Helper `common.Contains` of sagernet/sing: linear search. -/
def Contains (arr : List String) (target : String) : Bool :=
  match arr with
  | [] => false
  | x :: rest => if target = x then true else Contains rest target

/-- Helper `common.Filter` of sagernet/sing: the elements for which `block`
holds, in order. -/
def Filter (arr : List String) (block : String → Bool) : List String :=
  arr.foldl (fun retArr it => if block it then retArr ++ [it] else retArr) []

/-- The `Languages` expression of `open` (main.go:110-112). -/
def openLanguages (languages codes : List String) : List String :=
  languages ++ Filter codes (fun it => !Contains languages it)

/-- What a call of `open` did: its two results (a builder or an error) and the
`mmdbwriter.Load` calls it made, as `(path, options)`. -/
structure OpenOutcome (N : Type) where
  result : Except Error (Tree N)
  loadCalls : List (String × Options)

/-- Function `open` (main.go:99-115). `Open path` is the metadata of the reader
that `maxminddb.Open(path)` returns, or its error; `Load path opts` is the
result of `mmdbwriter.Load`. -/
def «open» {N : Type} (Open : String → Except Error Metadata)
    (Load : String → Options → Except Error (Tree N)) (path : String) (codes : List String) :
    OpenOutcome N :=
  match Open path with
  | .error err => ⟨.error err, []⟩
  | .ok metadata =>
    if metadata.DatabaseType ≠ "sing-geoip" then
      ⟨.error "invalid sing-geoip database", []⟩
    else
      let opts : Options :=
        { Languages := openLanguages metadata.Languages codes
          Inserter := InserterFunc.ReplaceWith }
      ⟨Load path opts, [(path, opts)]⟩

/-- Method `writer.Insert(item, mmdbtype.String(code))`: `insertErr` is the
error with which the library rejects the insertion into the tree as it stands,
if it does; otherwise the pair is in the tree. -/
def Insert {N : Type} (insertErr : Tree N → N → String → Option Error) (writer : Tree N)
    (item : N) (code : String) : Tree N × Option Error :=
  match insertErr writer item code with
  | some e => (writer, some e)
  | none => ({ writer with inserted := writer.inserted ++ [(item, code)] }, none)

/-- The inner loop of `write` (main.go:133-138): the tree after the loop, and
the error that makes `write` return, if any. -/
def insertItems {N : Type} (insertErr : Tree N → N → String → Option Error) (code : String) :
    Tree N → List N → Tree N × Option Error
  | writer, [] => (writer, none)
  | writer, item :: rest =>
    match Insert insertErr writer item code with
    | (writer, some err) => (writer, some err)
    | (writer, none) => insertItems insertErr code writer rest

/-- The outer loop of `write` (main.go:129-139) over the entries of `dataMap`
in visiting order. -/
def insertEntries {N : Type} (insertErr : Tree N → N → String → Option Error)
    (codeMap : GoMap Bool) : Tree N → List (String × List N) → Tree N × Option Error
  | writer, [] => (writer, none)
  | writer, (code, data) :: rest =>
    if !codeMap.index code false then
      insertEntries insertErr codeMap writer rest
    else
      match insertItems insertErr code writer data with
      | (writer, some err) => (writer, some err)
      | (writer, none) => insertEntries insertErr codeMap writer rest

/-- Go `a < b` on strings, as lexicographic comparison of the character
sequences. -/
def stringLess : List Char → List Char → Bool
  | [], [] => false
  | [], _ :: _ => true
  | _ :: _, [] => false
  | a :: as, b :: bs =>
    if a.toNat < b.toNat then true
    else if b.toNat < a.toNat then false
    else stringLess as bs

/-- Function `sort.Strings`: the strings in ascending order of `<`. -/
def sortStrings (codes : List String) : List String :=
  codes.insertionSort (fun a b => stringLess b.data a.data = false)

/-- Lines 118-128 of `write`: the allow-list as a set. `keyOrder` is the order
in which `for code := range dataMap` (line 120) visits the keys. -/
def writeCodeMap {N : Type} (dataMap : GoMap (List N)) (codes : List String)
    (keyOrder : List String) : GoMap Bool :=
  let codes :=
    if codes.length = 0 then
      (dataMap.range keyOrder []).foldl (fun codes kv => codes ++ [kv.1]) []
    else codes
  let codes := sortStrings codes
  codes.foldl (fun codeMap code => codeMap.set code true) []

/-- What a call of `write` did: the tree behind `writer` afterwards, the error
returned, and the files written in full, as `(path, tree serialized)`. -/
structure WriteOutcome (N : Type) where
  writer : Tree N
  err : Option Error
  files : List (String × Tree N)

/-- Function `write` (main.go:117-147). `keyOrder` and `dataOrder` are the
orders in which the two `range dataMap` loops (lines 120 and 129) visit the
keys; `createErr` and `writeToErr` are the errors of `os.Create` and
`writer.WriteTo`, if any. -/
def write {N : Type} (insertErr : Tree N → N → String → Option Error)
    (createErr : String → Option Error) (writeToErr : String → Tree N → Option Error)
    (writer : Tree N) (dataMap : GoMap (List N)) (output : String) (codes : List String)
    (keyOrder dataOrder : List String) : WriteOutcome N :=
  let codeMap := writeCodeMap dataMap codes keyOrder
  match insertEntries insertErr codeMap writer (dataMap.range dataOrder []) with
  | (writer, some err) => ⟨writer, some err, []⟩
  | (writer, none) =>
    match createErr output with
    | some err => ⟨writer, some err, []⟩
    | none =>
      match writeToErr output writer with
      | some err => ⟨writer, some err, []⟩
      | none => ⟨writer, none, [(output, writer)]⟩

/-! ## The rule-set emitter and `release` -/

/-- Struct `option.DefaultHeadlessRule` of sing-box: its match fields, each
empty in the zero value. -/
structure DefaultHeadlessRule where
  QueryType : List Nat := []
  Network : List String := []
  Domain : List String := []
  DomainSuffix : List String := []
  DomainKeyword : List String := []
  DomainRegex : List String := []
  SourceIPCIDR : List String := []
  IPCIDR : List String := []
  SourcePort : List Nat := []
  SourcePortRange : List String := []
  Port : List Nat := []
  PortRange : List String := []
  ProcessName : List String := []
  ProcessPath : List String := []
  PackageName : List String := []
  WIFISSID : List String := []
  WIFIBSSID : List String := []
  Invert : Bool := false
deriving DecidableEq, Repr

/-- Struct `option.LogicalHeadlessRule` of sing-box, over the type of its
sub-rules. -/
structure LogicalHeadlessRule (Rule : Type) where
  Mode : String := ""
  Rules : List Rule := []
  Invert : Bool := false

/-- Struct `option.HeadlessRule` of sing-box: the rule type tag and the options
of the two kinds of rule. -/
inductive HeadlessRule where
  | mk (RuleType : String) (DefaultOptions : DefaultHeadlessRule)
      (LogicalOptions : LogicalHeadlessRule HeadlessRule)

/-- Field `Type` of a `HeadlessRule`. -/
def HeadlessRule.RuleType : HeadlessRule → String
  | .mk t _ _ => t

/-- Field `DefaultOptions` of a `HeadlessRule`. -/
def HeadlessRule.DefaultOptions : HeadlessRule → DefaultHeadlessRule
  | .mk _ d _ => d

/-- Field `LogicalOptions` of a `HeadlessRule`. -/
def HeadlessRule.LogicalOptions : HeadlessRule → LogicalHeadlessRule HeadlessRule
  | .mk _ _ l => l

/-- Struct `option.PlainRuleSet` of sing-box. -/
structure PlainRuleSet where
  Rules : List HeadlessRule

/-- Constant `C.RuleTypeDefault` of sing-box. -/
def RuleTypeDefault : String := "default"

/-- Lines 187-198 of `release`: the rule set built for one entry of
`countryMap`. `cidrString` is `(*net.IPNet).String`. -/
def buildRuleSet {N : Type} (cidrString : N → String) (ipNets : List N) : PlainRuleSet :=
  let headlessRule : DefaultHeadlessRule := {}
  let headlessRule := { headlessRule with IPCIDR := [] }
  let headlessRule :=
    ipNets.foldl (fun headlessRule cidr =>
      { headlessRule with IPCIDR := headlessRule.IPCIDR ++ [cidrString cidr] }) headlessRule
  { Rules := [HeadlessRule.mk RuleTypeDefault headlessRule {}] }

/-- The libraries, the outside world and the map visiting orders of one run of
`release`. `B` is the type of the downloaded bytes; `download` is the result of
`download()`, `mkdirErr` the error of `os.MkdirAll` (the result of
`os.RemoveAll` is discarded by the code), `srsWriteErr` the error of
`srs.Write`, `absJoin dir file` the path `filepath.Abs(filepath.Join(dir,
file))`; the six orders are those of the six `range` loops over the map, in
program order. -/
structure World (N R B : Type) where
  download : Except Error B
  FromBytes : B → Except Error (Reader N R)
  ToLower : String → String
  decode : IpinfoContry → R → Except Error IpinfoContry
  cidrString : N → String
  newErr : Options → Option Error
  insertErr : Tree N → N → String → Option Error
  createErr : String → Option Error
  writeToErr : String → Tree N → Option Error
  mkdirErr : String → Option Error
  srsWriteErr : String → PlainRuleSet → Option Error
  absJoin : String → String → String
  allCodesOrder : List String
  fullKeyOrder : List String
  fullDataOrder : List String
  cnKeyOrder : List String
  cnDataOrder : List String
  ruleSetOrder : List String

/-- What a run of `release` did: the error returned, the label list handed to
the first `newWriter`, the trie files and the rule-set files written in full,
in writing order, and the lines printed on standard output. -/
structure ReleaseOutcome (N : Type) where
  err : Option Error
  allCodes : List String
  tries : List (String × Tree N)
  ruleSets : List (String × PlainRuleSet)
  stdout : List String

/-- Lines 158-161 of `release`: the label list collected from `countryMap`,
with `order` the visiting order of `for code := range countryMap`. -/
def collectCodes {N : Type} (countryMap : GoMap (List N)) (order : List String) : List String :=
  (countryMap.range order []).foldl (fun allCodes kv => allCodes ++ [kv.1]) []

/-- The loop of lines 186-211 of `release` over the entries of `countryMap` in
visiting order: the rule-set files written, and the error that ends it. The
progress line on standard error is not recorded. -/
def emitRuleSets {N : Type} (cidrString : N → String)
    (createErr : String → Option Error) (srsWriteErr : String → PlainRuleSet → Option Error)
    (absJoin : String → String → String) (ruleSetOutput : String) :
    List (String × List N) → List (String × PlainRuleSet) × Option Error
  | [] => ([], none)
  | (countryCode, ipNets) :: rest =>
    let plainRuleSet := buildRuleSet cidrString ipNets
    let srsPath := absJoin ruleSetOutput ("geoip-" ++ countryCode ++ ".srs")
    match createErr srsPath with
    | some err => ([], some err)
    | none =>
      match srsWriteErr srsPath plainRuleSet with
      | some err => ([], some err)
      | none =>
        let r := emitRuleSets cidrString createErr srsWriteErr absJoin ruleSetOutput rest
        ((srsPath, plainRuleSet) :: r.1, r.2)

/-- Function `setActionOutput` (main.go:217-219): the line printed. -/
def setActionOutput (name content : String) : String :=
  "::set-output name=" ++ name ++ "::" ++ content ++ "\n"

/-- Function `release` (main.go:149-215). -/
def release {N R B : Type} (w : World N R B) (output ruleSetOutput : String) :
    ReleaseOutcome N :=
  match w.download with
  | .error err => ⟨some err, [], [], [], []⟩
  | .ok binary =>
    let parsed := parse w.ToLower w.decode (w.FromBytes binary)
    match parsed.err with
    | some err => ⟨some err, [], [], [], []⟩
    | none =>
      let countryMap := parsed.countryMap
      let allCodes := collectCodes countryMap w.allCodesOrder
      match newWriter w.newErr parsed.metadata allCodes with
      | .error err => ⟨some err, allCodes, [], [], []⟩
      | .ok writer =>
        let full := write w.insertErr w.createErr w.writeToErr writer countryMap output []
          w.fullKeyOrder w.fullDataOrder
        match full.err with
        | some err => ⟨some err, allCodes, full.files, [], []⟩
        | none =>
          match newWriter w.newErr parsed.metadata ["cn"] with
          | .error err => ⟨some err, allCodes, full.files, [], []⟩
          | .ok writer =>
            let cn := write w.insertErr w.createErr w.writeToErr writer countryMap "geoip-cn.db"
              ["cn"] w.cnKeyOrder w.cnDataOrder
            match cn.err with
            | some err => ⟨some err, allCodes, full.files ++ cn.files, [], []⟩
            | none =>
              match w.mkdirErr ruleSetOutput with
              | some err => ⟨some err, allCodes, full.files ++ cn.files, [], []⟩
              | none =>
                let rs := emitRuleSets w.cidrString w.createErr w.srsWriteErr w.absJoin
                  ruleSetOutput (countryMap.range w.ruleSetOrder [])
                match rs.2 with
                | some err => ⟨some err, allCodes, full.files ++ cn.files, rs.1, []⟩
                | none =>
                  ⟨none, allCodes, full.files ++ cn.files, rs.1,
                    [setActionOutput "tag" "ipinfo"]⟩

/-- A world in which every library call succeeds, over networks written as
CIDR strings and raw records as key/value lists, with the given source database
and one visiting order for each loop over the map. -/
def plainWorld (db : Reader String RawRecord) (order : List String) :
    World String RawRecord Unit :=
  { download := .ok ()
    FromBytes := fun _ => .ok db
    ToLower := asciiToLower
    decode := decodeStruct
    cidrString := fun n => n
    newErr := fun _ => none
    insertErr := fun _ _ _ => none
    createErr := fun _ => none
    writeToErr := fun _ _ => none
    mkdirErr := fun _ => none
    srsWriteErr := fun _ _ => none
    absJoin := fun dir file => dir ++ "/" ++ file
    allCodesOrder := order
    fullKeyOrder := order
    fullDataOrder := order
    cnKeyOrder := order
    cnDataOrder := order
    ruleSetOrder := order }

/-- The record of a network by itself: what the struct decoding gives for its
raw record in a struct that holds the zero value. -/
def ownRecord (raw : RawRecord) : IpinfoContry :=
  match decodeStruct IpinfoContry.zero raw with
  | .ok country => country
  | .error _ => IpinfoContry.zero

/-- A source database of two networks, the first of country US, the second
with a continent code EU and no country key. -/
def continentOnlyDb : Reader String RawRecord :=
  { Metadata := ⟨"ipinfo country", ["en"], 6, 32⟩
    networks := [("3.0.0.0/8", [("country", "US")]), ("5.6.7.0/24", [("continent", "EU")])]
    networksErr := none }

/-- A source database of two networks of country JP. -/
def jpDb : Reader String RawRecord :=
  { Metadata := ⟨"ipinfo country", ["en"], 6, 32⟩
    networks :=
      [("1.2.3.0/24", [("continent", "AS"), ("country", "JP")]),
       ("5.6.7.0/24", [("continent", "AS"), ("country", "JP")])]
    networksErr := none }

/-- The label filter of `write`: every label when `codes` is empty, the
elements of `codes` otherwise. -/
def allowedLabel (codes : List String) (code : String) : Bool :=
  if codes = [] then true else decide (code ∈ codes)

/-- The `(network, label)` pairs of a sequence of map entries. -/
def labelledPairs {N : Type} (entries : List (String × List N)) : List (N × String) :=
  entries.flatMap (fun kv => kv.2.map (fun item => (item, kv.1)))

/-- The path of the rule-set file of a label and the rule set built for its
networks: what one iteration of the rule-set loop of `release` hands to
`srs.Write`. -/
def ruleSetFile {N : Type} (cidrString : N → String) (absJoin : String → String → String)
    (ruleSetOutput : String) (kv : String × List N) : String × PlainRuleSet :=
  (absJoin ruleSetOutput ("geoip-" ++ kv.1 ++ ".srs"), buildRuleSet cidrString kv.2)

/-- A source database of two networks, the first of country CN, the second of
country US. -/
def twoCountryDb : Reader String RawRecord :=
  { Metadata := ⟨"ipinfo country", ["en"], 6, 32⟩
    networks :=
      [("1.0.1.0/24", [("continent", "AS"), ("country", "CN")]),
       ("3.0.0.0/8", [("continent", "NA"), ("country", "US")])]
    networksErr := none }

/-- A source database of two networks whose second record stores no field. -/
def sparseDb : Reader String RawRecord :=
  { Metadata := ⟨"ipinfo country", ["en"], 6, 32⟩
    networks := [("3.0.0.0/8", [("country", "US")]), ("10.0.0.0/8", [])]
    networksErr := none }

/-- The source database that holds only the second network of `sparseDb`, with
the same raw record. -/
def sparseTailDb : Reader String RawRecord :=
  { Metadata := ⟨"ipinfo country", ["en"], 6, 32⟩
    networks := [("10.0.0.0/8", [])]
    networksErr := none }

/-! ## Lemmas on Go maps -/

namespace GoMap

variable {V : Type}

theorem index_set (m : GoMap V) (k k' : String) (v zero : V) :
    (m.set k v).index k' zero = if k = k' then v else m.index k' zero := by
  induction m with
  | nil => simp [set, index]
  | cons kv rest ih =>
    obtain ⟨a, b⟩ := kv
    by_cases hak : a = k
    · subst hak
      by_cases hak' : a = k' <;> simp [set, index, hak']
    · by_cases hak' : a = k'
      · subst hak'
        have hne : ¬ k = a := fun h => hak h.symm
        simp [set, index, hak, hne]
      · simp [set, index, hak, hak', ih]

theorem keys_set (m : GoMap V) (k : String) (v : V) :
    (m.set k v).keys = if k ∈ m.keys then m.keys else m.keys ++ [k] := by
  induction m with
  | nil => simp [set, keys]
  | cons kv rest ih =>
    obtain ⟨a, b⟩ := kv
    by_cases hak : a = k
    · subst hak
      simp [set, keys]
    · have hne : ¬ k = a := fun h => hak h.symm
      have ih' := ih
      simp only [keys] at ih'
      by_cases hmem : k ∈ rest.map (fun kv => kv.1)
      · simp only [set, keys, hak, if_false, List.map_cons, List.mem_cons, hne, false_or, hmem,
          if_true] at ih' ⊢
        rw [ih']
      · simp only [set, keys, hak, if_false, List.map_cons, List.mem_cons, hne, false_or, hmem,
          List.cons_append] at ih' ⊢
        rw [ih']

theorem keys_set_nodup (m : GoMap V) (k : String) (v : V) (h : m.keys.Nodup) :
    (m.set k v).keys.Nodup := by
  rw [keys_set]
  by_cases hmem : k ∈ m.keys
  · simpa [hmem] using h
  · simp only [hmem, if_false]
    exact List.Nodup.append h (List.nodup_singleton k) (by simpa using hmem)

theorem index_of_mem (m : GoMap V) (h : m.keys.Nodup) (k : String) (v zero : V)
    (hmem : (k, v) ∈ m) : m.index k zero = v := by
  induction m with
  | nil => cases hmem
  | cons kv rest ih =>
    obtain ⟨a, b⟩ := kv
    simp only [keys, List.map_cons, List.nodup_cons] at h
    rcases List.mem_cons.mp hmem with heq | hrest
    · cases heq
      simp [index]
    · have hne : a ≠ k := by
        intro hak
        apply h.1
        subst hak
        exact List.mem_map.mpr ⟨(a, v), hrest, rfl⟩
      simp only [index, hne, if_false]
      exact ih h.2 hrest

theorem index_of_not_mem (m : GoMap V) (k : String) (zero : V) (h : k ∉ m.keys) :
    m.index k zero = zero := by
  induction m with
  | nil => rfl
  | cons kv rest ih =>
    obtain ⟨a, b⟩ := kv
    simp only [keys, List.map_cons, List.mem_cons, not_or] at h
    have hne : a ≠ k := fun hak => h.1 hak.symm
    simp only [index, hne, if_false]
    exact ih h.2

theorem total_set_append {N : Type} (m : GoMap (List N)) (k : String) (n : N) :
    total (m.set k (m.index k [] ++ [n])) = total m + 1 := by
  induction m with
  | nil => simp [set, index, total]
  | cons kv rest ih =>
    obtain ⟨a, b⟩ := kv
    by_cases hak : a = k
    · subst hak
      simp [set, index, total]
      omega
    · simp only [total] at ih
      simp [set, index, total, hak, ih]
      omega

end GoMap

/-! ## Lemmas on the loop of `parse` -/

theorem length_filter_eq_one {α : Type} [DecidableEq α] (l : List α) (x : α) (hnd : l.Nodup)
    (hx : x ∈ l) : (l.filter (fun p => decide (p = x))).length = 1 := by
  induction l with
  | nil => cases hx
  | cons a rest ih =>
    obtain ⟨ha, hrest⟩ := List.nodup_cons.mp hnd
    by_cases hax : a = x
    · subst hax
      have hnil : rest.filter (fun p => decide (p = a)) = [] := by
        rw [List.filter_eq_nil_iff]
        intro p hp
        have : p ≠ a := fun h => ha (h ▸ hp)
        simpa using this
      simp [List.filter_cons, hnil]
    · have hx' : x ∈ rest := by
        rcases List.mem_cons.mp hx with h | h
        · exact absurd h.symm hax
        · exact h
      simp [List.filter_cons, hax, ih hrest hx']

section ParseLemmas

variable {N R : Type} (ToLower : String → String)
  (decode : IpinfoContry → R → Except Error IpinfoContry)

theorem resolveCode_eq_none_iff (country : IpinfoContry) :
    resolveCode ToLower country = none ↔ country.Country = "" ∧ country.Continent = "" := by
  unfold resolveCode
  by_cases h1 : country.Country = "" <;> by_cases h2 : country.Continent = "" <;> simp [h1, h2]

theorem parseLoop_index (L : String) (items : List (N × R)) :
    ∀ (c : IpinfoContry) (m : GoMap (List N)) (fe : Option Error),
      (parseLoop ToLower decode c m items fe).1.index L [] =
        m.index L [] ++
          ((decodedRecords decode c items).filter
            (fun p => resolveCode ToLower p.2 = some L)).map (fun p => p.1) := by
  induction items with
  | nil => intro c m fe; simp [parseLoop, decodedRecords]
  | cons item rest ih =>
    intro c m fe
    obtain ⟨ipNet, raw⟩ := item
    cases hd : decode c raw with
    | error e => simp [parseLoop, decodedRecords, hd]
    | ok c' =>
      cases hr : resolveCode ToLower c' with
      | none => simp [parseLoop, decodedRecords, hd, hr, ih]
      | some code =>
        simp only [parseLoop, decodedRecords, hd, hr, ih, GoMap.index_set]
        by_cases hL : code = L
        · simp [hL, hr, List.filter_cons]
        · simp [hL, hr, List.filter_cons]

theorem parseLoop_keys_nodup (items : List (N × R)) :
    ∀ (c : IpinfoContry) (m : GoMap (List N)) (fe : Option Error), m.keys.Nodup →
      (parseLoop ToLower decode c m items fe).1.keys.Nodup := by
  induction items with
  | nil => intro c m fe h; simpa [parseLoop] using h
  | cons item rest ih =>
    intro c m fe h
    obtain ⟨ipNet, raw⟩ := item
    cases hd : decode c raw with
    | error e => simpa [parseLoop, hd] using h
    | ok c' =>
      cases hr : resolveCode ToLower c' with
      | none =>
        simp only [parseLoop, hd, hr]
        exact ih c' m fe h
      | some code =>
        simp only [parseLoop, hd, hr]
        exact ih c' _ fe (GoMap.keys_set_nodup m code _ h)

theorem parseLoop_total (items : List (N × R)) :
    ∀ (c : IpinfoContry) (m : GoMap (List N)) (fe : Option Error),
      GoMap.total (parseLoop ToLower decode c m items fe).1 +
          ((decodedRecords decode c items).filter
            (fun p => decide (p.2.Country = "" ∧ p.2.Continent = ""))).length =
        GoMap.total m + (decodedRecords decode c items).length := by
  induction items with
  | nil => intro c m fe; simp [parseLoop, decodedRecords]
  | cons item rest ih =>
    intro c m fe
    obtain ⟨ipNet, raw⟩ := item
    cases hd : decode c raw with
    | error e => simp [parseLoop, decodedRecords, hd]
    | ok c' =>
      cases hr : resolveCode ToLower c' with
      | none =>
        have hempty := (resolveCode_eq_none_iff ToLower c').mp hr
        have := ih c' m fe
        simp only [parseLoop, decodedRecords, hd, hr, List.filter_cons, hempty, and_self,
          decide_True, if_true, List.length_cons]
        omega
      | some code =>
        have hne : ¬ (c'.Country = "" ∧ c'.Continent = "") := by
          intro h
          rw [(resolveCode_eq_none_iff ToLower c').mpr h] at hr
          cases hr
        have := ih c' (m.set code (m.index code [] ++ [ipNet])) fe
        rw [GoMap.total_set_append] at this
        simp only [parseLoop, decodedRecords, hd, hr, List.filter_cons, hne, decide_False,
          List.length_cons]
        simp only [Bool.false_eq_true, if_false]
        omega

theorem parseLoop_ok_records (items : List (N × R)) :
    ∀ (c : IpinfoContry) (m : GoMap (List N)) (fe : Option Error),
      (parseLoop ToLower decode c m items fe).2 = none →
        (decodedRecords decode c items).map (fun p => p.1) = items.map (fun p => p.1) := by
  induction items with
  | nil => intro c m fe _; simp [decodedRecords]
  | cons item rest ih =>
    intro c m fe h
    obtain ⟨ipNet, raw⟩ := item
    cases hd : decode c raw with
    | error e => simp [parseLoop, hd] at h
    | ok c' =>
      cases hr : resolveCode ToLower c' with
      | none =>
        simp only [parseLoop, hd, hr] at h
        simp [decodedRecords, hd, ih c' m fe h]
      | some code =>
        simp only [parseLoop, hd, hr] at h
        simp [decodedRecords, hd, ih c' _ fe h]

end ParseLemmas

/-! ## The label resolver and the network aggregator -/

/-- C1. The label that `parse` chooses for a decoded record is the one of the
three-way reference definition (the lower-cased country code if it is
non-empty, whatever the continent code; else the lower-cased continent code if
it is non-empty; else none), and an iteration of the loop of `parse` appends
the network under that label, or leaves the map as it is when there is none.
With ASCII lower-casing, Country "US" and Continent "NA" give "us", and an empty
Country with Continent "EU" gives "eu". -/
theorem parse_label_resolution {N R : Type} (ToLower : String → String)
    (decode : IpinfoContry → R → Except Error IpinfoContry) (c country : IpinfoContry)
    (countryMap : GoMap (List N)) (ipNet : N) (raw : R) (rest : List (N × R))
    (networksErr : Option Error) (hdec : decode c raw = .ok country) :
    resolveCode ToLower country = labelReference ToLower country.Country country.Continent ∧
    parseLoop ToLower decode c countryMap ((ipNet, raw) :: rest) networksErr =
      (match labelReference ToLower country.Country country.Continent with
       | some label =>
         parseLoop ToLower decode country
           (countryMap.set label (countryMap.index label [] ++ [ipNet])) rest networksErr
       | none => parseLoop ToLower decode country countryMap rest networksErr) ∧
    resolveCode asciiToLower ⟨"NA", "", "US", ""⟩ = some "us" ∧
    resolveCode asciiToLower ⟨"EU", "", "", ""⟩ = some "eu" := by
  have href : resolveCode ToLower country =
      labelReference ToLower country.Country country.Continent := by
    have hempty : ∀ s : String, s.isEmpty = decide (s = "") := by
      intro s
      by_cases hs : s = ""
      · subst hs; rfl
      · have : ¬ s.isEmpty = true := fun h => hs ((String.isEmpty_iff s).mp h)
        simpa [hs] using this
    unfold resolveCode labelReference
    rw [hempty country.Country, hempty country.Continent]
    by_cases h1 : country.Country = "" <;> by_cases h2 : country.Continent = "" <;>
      simp [h1, h2]
  refine ⟨href, ?_, by decide, by decide⟩
  rw [← href]
  cases hr : resolveCode ToLower country <;> simp [parseLoop, hdec, hr]

/-- C1, at a concrete iteration: key "country" = "US" and "continent" = "NA"
puts the network under "us". -/
theorem parse_label_resolution_witness :
    decodeStruct IpinfoContry.zero [("country", "US"), ("continent", "NA")] =
        .ok ⟨"NA", "", "US", ""⟩ ∧
      parseLoop asciiToLower decodeStruct IpinfoContry.zero ([] : GoMap (List String))
          [("1.2.3.0/24", [("country", "US"), ("continent", "NA")])] none =
        ([("us", ["1.2.3.0/24"])], none) := by
  have h := parse_label_resolution asciiToLower decodeStruct IpinfoContry.zero
    ⟨"NA", "", "US", ""⟩ ([] : GoMap (List String)) "1.2.3.0/24"
    [("country", "US"), ("continent", "NA")] [] none rfl
  exact ⟨rfl, by rw [h.2.1]; decide⟩

/-- Grouping by the record variable: when `parse` returns without error, every
network of the source was decoded, and the sequence that the returned map holds
for a label is the sequence of the source networks at whose iteration the
record variable `country` resolves to that label, in source order, with the
counts and absences that follow. -/
theorem parse_groups_by_record_variable {N R : Type} [DecidableEq N]
    (ToLower : String → String) (decode : IpinfoContry → R → Except Error IpinfoContry)
    (db : Reader N R) (hok : (parse ToLower decode (.ok db)).err = none) :
    (decodedRecords decode IpinfoContry.zero db.networks).map (fun p => p.1) =
        db.networks.map (fun p => p.1) ∧
    (∀ L : String, (parse ToLower decode (.ok db)).countryMap.index L [] =
        ((decodedRecords decode IpinfoContry.zero db.networks).filter
          (fun p => resolveCode ToLower p.2 = some L)).map (fun p => p.1)) ∧
    (∀ (L : String) (n : N), ((parse ToLower decode (.ok db)).countryMap.index L []).count n =
        ((decodedRecords decode IpinfoContry.zero db.networks).filter
          (fun p => decide (p.1 = n ∧ resolveCode ToLower p.2 = some L))).length) ∧
    (∀ (L : String) (n : N),
        (∀ r, (n, r) ∈ decodedRecords decode IpinfoContry.zero db.networks →
          resolveCode ToLower r ≠ some L) →
        n ∉ (parse ToLower decode (.ok db)).countryMap.index L []) ∧
    ((db.networks.map (fun p => p.1)).Nodup →
      ∀ (n : N) (r : IpinfoContry) (L : String),
        (n, r) ∈ decodedRecords decode IpinfoContry.zero db.networks →
        resolveCode ToLower r = some L →
        ((parse ToLower decode (.ok db)).countryMap.index L []).count n = 1 ∧
        ∀ L' : String, L' ≠ L → n ∉ (parse ToLower decode (.ok db)).countryMap.index L' []) := by
  have hrec : (decodedRecords decode IpinfoContry.zero db.networks).map (fun p => p.1) =
      db.networks.map (fun p => p.1) :=
    parseLoop_ok_records ToLower decode db.networks IpinfoContry.zero [] db.networksErr hok
  have hidx : ∀ L : String, (parse ToLower decode (.ok db)).countryMap.index L [] =
      ((decodedRecords decode IpinfoContry.zero db.networks).filter
        (fun p => resolveCode ToLower p.2 = some L)).map (fun p => p.1) := by
    intro L
    have := parseLoop_index ToLower decode L db.networks IpinfoContry.zero [] db.networksErr
    simpa [parse, GoMap.index] using this
  have hnot : ∀ (L : String) (n : N),
      (∀ r, (n, r) ∈ decodedRecords decode IpinfoContry.zero db.networks →
        resolveCode ToLower r ≠ some L) →
      n ∉ (parse ToLower decode (.ok db)).countryMap.index L [] := by
    intro L n hall hmem
    rw [hidx L] at hmem
    obtain ⟨p, hp, hpn⟩ := List.mem_map.mp hmem
    obtain ⟨hp1, hp2⟩ := List.mem_filter.mp hp
    obtain ⟨n', r⟩ := p
    simp only at hpn
    subst hpn
    exact hall r hp1 (by simpa using hp2)
  have hcount : ∀ (L : String) (n : N),
      ((parse ToLower decode (.ok db)).countryMap.index L []).count n =
        ((decodedRecords decode IpinfoContry.zero db.networks).filter
          (fun p => decide (p.1 = n ∧ resolveCode ToLower p.2 = some L))).length := by
    intro L n
    rw [hidx L]
    generalize decodedRecords decode IpinfoContry.zero db.networks = recs
    induction recs with
    | nil => simp
    | cons p rest ih =>
      by_cases h1 : resolveCode ToLower p.2 = some L <;> by_cases h2 : p.1 = n <;>
        simp [List.filter_cons, h1, h2, List.count_cons, ih]
  refine ⟨hrec, hidx, hcount, hnot, ?_⟩
  intro hnd n r L hmem hres
  have hndrec : ((decodedRecords decode IpinfoContry.zero db.networks).map
      (fun p => p.1)).Nodup := by rw [hrec]; exact hnd
  have huniq : ∀ r', (n, r') ∈ decodedRecords decode IpinfoContry.zero db.networks → r' = r := by
    intro r' hmem'
    have := List.inj_on_of_nodup_map hndrec hmem' hmem rfl
    exact (Prod.mk.inj this).2
  refine ⟨?_, ?_⟩
  · rw [hcount L n]
    have hfilter : (decodedRecords decode IpinfoContry.zero db.networks).filter
        (fun p => decide (p.1 = n ∧ resolveCode ToLower p.2 = some L)) =
        (decodedRecords decode IpinfoContry.zero db.networks).filter
          (fun p => decide (p = (n, r))) := by
      apply List.filter_congr
      intro p hp
      obtain ⟨n', r'⟩ := p
      by_cases hn : n' = n
      · subst hn
        have := huniq r' hp
        subst this
        simp [hres]
      · simp [hn]
    rw [hfilter]
    exact length_filter_eq_one _ (n, r) (List.Nodup.of_map _ hndrec) hmem
  · intro L' hne
    apply hnot L' n
    intro r' hmem' hres'
    rw [huniq r' hmem', hres] at hres'
    exact hne (Option.some.inj hres').symm

/-- Counting by the record variable: when `parse` returns without error, the
number of networks over all the sequences of the returned map plus the number
of iterations at which the record variable `country` has an empty Country and
an empty Continent is the number of networks the source yielded, and a network
at whose iterations the variable always has both fields empty is in no
sequence of the map. -/
theorem parse_counts_by_record_variable {N R : Type} (ToLower : String → String)
    (decode : IpinfoContry → R → Except Error IpinfoContry) (db : Reader N R)
    (hok : (parse ToLower decode (.ok db)).err = none) :
    GoMap.total (parse ToLower decode (.ok db)).countryMap +
        ((decodedRecords decode IpinfoContry.zero db.networks).filter
          (fun p => decide (p.2.Country = "" ∧ p.2.Continent = ""))).length =
      db.networks.length ∧
    (∀ n : N,
      (∀ r, (n, r) ∈ decodedRecords decode IpinfoContry.zero db.networks →
        r.Country = "" ∧ r.Continent = "") →
      ∀ kv ∈ (parse ToLower decode (.ok db)).countryMap, n ∉ kv.2) := by
  constructor
  · have htot := parseLoop_total ToLower decode db.networks IpinfoContry.zero [] db.networksErr
    have hlen := congrArg List.length
      (parseLoop_ok_records ToLower decode db.networks IpinfoContry.zero [] db.networksErr hok)
    simp only [List.length_map] at hlen
    simp only [parse]
    rw [htot, hlen]
    simp [GoMap.total]
  · intro n hall kv hkv hmem
    have hnd : (parse ToLower decode (.ok db)).countryMap.keys.Nodup :=
      parseLoop_keys_nodup ToLower decode db.networks IpinfoContry.zero [] db.networksErr
        (by simp [GoMap.keys])
    have hidx := GoMap.index_of_mem _ hnd kv.1 kv.2 [] hkv
    have hloop := parseLoop_index ToLower decode kv.1 db.networks IpinfoContry.zero []
      db.networksErr
    simp only [parse] at hidx
    rw [hidx] at hloop
    rw [hloop] at hmem
    simp only [GoMap.index, List.nil_append] at hmem
    obtain ⟨p, hp, hpn⟩ := List.mem_map.mp hmem
    obtain ⟨hp1, hp2⟩ := List.mem_filter.mp hp
    obtain ⟨n', r⟩ := p
    simp only at hpn
    subst hpn
    have hnone := (resolveCode_eq_none_iff ToLower r).mpr (hall r hp1)
    simp [hnone] at hp2

/-- C2. On a source that yields 3.0.0.0/8 with the record country US and then
5.6.7.0/24 with the record continent EU and no country key, `parse` returns
without error; the record of 5.6.7.0/24 by itself resolves to the label "eu",
but the returned map holds 5.6.7.0/24 in the sequence for "us" and has no
sequence for "eu": the network is filed under the label of the network before
it and not under its own. -/
theorem parse_files_network_under_preceding_label :
    (parse asciiToLower decodeStruct (.ok continentOnlyDb)).err = none ∧
    continentOnlyDb.networks.map (fun p => (p.1, resolveCode asciiToLower (ownRecord p.2))) =
      [("3.0.0.0/8", some "us"), ("5.6.7.0/24", some "eu")] ∧
    (parse asciiToLower decodeStruct (.ok continentOnlyDb)).countryMap =
      [("us", ["3.0.0.0/8", "5.6.7.0/24"])] ∧
    (parse asciiToLower decodeStruct (.ok continentOnlyDb)).countryMap.index "eu" [] = [] ∧
    (parse asciiToLower decodeStruct (.ok continentOnlyDb)).countryMap.index "us" [] =
      ["3.0.0.0/8", "5.6.7.0/24"] := by
  refine ⟨by decide, by decide, by decide, by decide, by decide⟩

/-- C3. On a source that yields 3.0.0.0/8 with the record country US and then
10.0.0.0/8 with a record that has neither a country nor a continent, `parse`
returns without error; one of the two networks has a record with both fields
empty, yet the returned map holds both networks, 10.0.0.0/8 among them in the
sequence for "us": the network is not dropped, and the networks in the map
plus the networks without a label are three, one more than the source
yielded. -/
theorem parse_keeps_network_without_label :
    (parse asciiToLower decodeStruct (.ok sparseDb)).err = none ∧
    sparseDb.networks.length = 2 ∧
    sparseDb.networks.filter
        (fun p => decide ((ownRecord p.2).Country = "" ∧ (ownRecord p.2).Continent = "")) =
      [("10.0.0.0/8", [])] ∧
    GoMap.total (parse asciiToLower decodeStruct (.ok sparseDb)).countryMap = 2 ∧
    "10.0.0.0/8" ∈ (parse asciiToLower decodeStruct (.ok sparseDb)).countryMap.index "us" [] := by
  refine ⟨by decide, by decide, by decide, by decide, by decide⟩

/-! ## The write-time label filter -/

section WriteLemmas

variable {N : Type} (insertErr : Tree N → N → String → Option Error)

theorem foldl_append_fst {α β : Type} (l : List (α × β)) (acc : List α) :
    l.foldl (fun codes kv => codes ++ [kv.1]) acc = acc ++ l.map (fun kv => kv.1) := by
  induction l generalizing acc with
  | nil => simp
  | cons a rest ih => simp [List.foldl_cons, ih]

theorem range_keys {V : Type} (m : GoMap V) (order : List String) (zero : V) :
    (m.range order zero).map (fun kv => kv.1) = order := by
  simp [GoMap.range, Function.comp_def]

theorem range_self {V : Type} (m : GoMap V) (zero : V) (hnd : m.keys.Nodup) :
    m.range m.keys zero = m := by
  induction m with
  | nil => rfl
  | cons kv rest ih =>
    obtain ⟨a, b⟩ := kv
    simp only [GoMap.keys, List.map_cons, List.nodup_cons] at hnd
    have ih' := ih hnd.2
    simp only [GoMap.range, GoMap.keys, List.map_map] at ih'
    simp only [GoMap.range, GoMap.keys, List.map_cons, GoMap.index, if_true, List.map_map,
      List.cons.injEq, true_and]
    rw [← ih']
    simp only [List.map_map]
    apply List.map_congr_left
    intro kv hkv
    have hne : a ≠ kv.1 := fun h => hnd.1 (h ▸ List.mem_map.mpr ⟨kv, hkv, rfl⟩)
    have hrest : List.map ((fun k => (k, GoMap.index rest k zero)) ∘ fun kv => kv.1) rest =
        rest := by simpa using ih'
    simp only [Function.comp_apply, hne, if_false]
    rw [hrest]

theorem range_perm {V : Type} (m : GoMap V) (order : List String) (zero : V)
    (hnd : m.keys.Nodup) (hperm : order.Perm m.keys) : (m.range order zero).Perm m := by
  have h := List.Perm.map (fun k => (k, m.index k zero)) hperm
  have hself := range_self m zero hnd
  simp only [GoMap.range] at hself
  rw [hself] at h
  exact h

theorem codeMap_index (codes : List String) (k : String) :
    ∀ codeMap : GoMap Bool,
      (codes.foldl (fun codeMap code => codeMap.set code true) codeMap).index k false =
        (decide (k ∈ codes) || codeMap.index k false) := by
  induction codes with
  | nil => intro codeMap; simp
  | cons c rest ih =>
    intro codeMap
    simp only [List.foldl_cons, ih, GoMap.index_set, List.mem_cons]
    by_cases hck : c = k
    · subst hck
      simp
    · have hkc : ¬ k = c := fun h => hck h.symm
      simp [hck, hkc]

theorem writeCodeMap_index (dataMap : GoMap (List N)) (codes keyOrder : List String)
    (hkeys : keyOrder.Perm dataMap.keys) (k : String) (hk : k ∈ dataMap.keys) :
    (writeCodeMap dataMap codes keyOrder).index k false = allowedLabel codes k := by
  unfold writeCodeMap allowedLabel
  simp only [codeMap_index, GoMap.index, Bool.or_false]
  have hsort : ∀ l : List String, k ∈ sortStrings l ↔ k ∈ l := fun l =>
    (List.perm_insertionSort _ l).mem_iff
  by_cases hc : codes = []
  · subst hc
    have hmem : k ∈ keyOrder := hkeys.mem_iff.mpr hk
    simp [hsort, foldl_append_fst, range_keys, hmem]
  · have hlen : ¬ codes.length = 0 := fun h => hc (List.length_eq_zero.mp h)
    simp [hc, hlen, hsort]

theorem insertItems_ok (code : String) (data : List N) :
    ∀ writer : Tree N, (insertItems insertErr code writer data).2 = none →
      (insertItems insertErr code writer data).1 =
        { writer with inserted := writer.inserted ++ data.map (fun item => (item, code)) } := by
  induction data with
  | nil => intro writer _; simp [insertItems]
  | cons item rest ih =>
    intro writer h
    cases he : insertErr writer item code with
    | some e => simp [insertItems, Insert, he] at h
    | none =>
      simp only [insertItems, Insert, he] at h ⊢
      rw [ih _ h]
      simp

theorem insertEntries_ok (codeMap : GoMap Bool) (entries : List (String × List N)) :
    ∀ writer : Tree N, (insertEntries insertErr codeMap writer entries).2 = none →
      (insertEntries insertErr codeMap writer entries).1 =
        { writer with
          inserted := writer.inserted ++
            labelledPairs (entries.filter (fun kv => codeMap.index kv.1 false)) } := by
  induction entries with
  | nil => intro writer _; simp [insertEntries, labelledPairs]
  | cons kv rest ih =>
    intro writer h
    obtain ⟨code, data⟩ := kv
    by_cases hallow : codeMap.index code false = true
    · simp only [insertEntries, hallow, Bool.not_true, Bool.false_eq_true, if_false] at h ⊢
      cases hi : insertItems insertErr code writer data with
      | mk w e =>
        cases e with
        | some err => simp [hi] at h
        | none =>
          simp only [hi] at h ⊢
          have hitems := insertItems_ok insertErr code data writer (by rw [hi])
          rw [hi] at hitems
          simp only at hitems
          rw [ih w h, hitems]
          simp [List.filter_cons, hallow, labelledPairs, List.flatMap_cons]
    · have hfalse : codeMap.index code false = false := by simpa using hallow
      simp only [insertEntries, hfalse, Bool.not_false, if_true] at h ⊢
      rw [ih writer h]
      simp [List.filter_cons, hfalse]

end WriteLemmas

/-- C4. When every insertion that `write` attempts succeeds, the pairs it adds
to the trie are, in insertion order, the `(network, label)` pairs of the map
entries with an allowed label, visited in the order of the loop; up to order
they are exactly the pairs of the map with an allowed label, each as often as
the map holds it, and every one of them carries an allowed label. A label is
allowed if `codes` is empty, and otherwise if it is an element of `codes`. The
options of the trie are untouched. -/
theorem write_inserts_allowed_pairs {N : Type}
    (insertErr : Tree N → N → String → Option Error) (createErr : String → Option Error)
    (writeToErr : String → Tree N → Option Error) (writer : Tree N)
    (dataMap : GoMap (List N)) (output : String) (codes keyOrder dataOrder : List String)
    (hnd : dataMap.keys.Nodup) (hkeys : keyOrder.Perm dataMap.keys)
    (hdata : dataOrder.Perm dataMap.keys)
    (hins : (insertEntries insertErr (writeCodeMap dataMap codes keyOrder) writer
      (dataMap.range dataOrder [])).2 = none) :
    (write insertErr createErr writeToErr writer dataMap output codes keyOrder
        dataOrder).writer.opts = writer.opts ∧
    (write insertErr createErr writeToErr writer dataMap output codes keyOrder
        dataOrder).writer.inserted =
      writer.inserted ++
        labelledPairs ((dataMap.range dataOrder []).filter
          (fun kv => allowedLabel codes kv.1)) ∧
    (labelledPairs ((dataMap.range dataOrder []).filter
        (fun kv => allowedLabel codes kv.1))).Perm
      (labelledPairs (dataMap.filter (fun kv => allowedLabel codes kv.1))) ∧
    (∀ p ∈ labelledPairs ((dataMap.range dataOrder []).filter
        (fun kv => allowedLabel codes kv.1)),
      allowedLabel codes p.2 = true ∧ p.1 ∈ dataMap.index p.2 []) := by
  have hwriter : (write insertErr createErr writeToErr writer dataMap output codes keyOrder
      dataOrder).writer =
      (insertEntries insertErr (writeCodeMap dataMap codes keyOrder) writer
        (dataMap.range dataOrder [])).1 := by
    simp only [write]
    cases hi : insertEntries insertErr (writeCodeMap dataMap codes keyOrder) writer
        (dataMap.range dataOrder []) with
    | mk w e =>
      cases e with
      | some err => simp [hi] at hins
      | none =>
        cases hc : createErr output with
        | some err => simp
        | none => cases hw : writeToErr output w <;> simp [hw]
  have hfilter : (dataMap.range dataOrder []).filter
      (fun kv => (writeCodeMap dataMap codes keyOrder).index kv.1 false) =
      (dataMap.range dataOrder []).filter (fun kv => allowedLabel codes kv.1) := by
    apply List.filter_congr
    intro kv hkv
    have hk : kv.1 ∈ dataMap.keys := by
      apply hdata.mem_iff.mp
      rw [← range_keys dataMap dataOrder []]
      exact List.mem_map.mpr ⟨kv, hkv, rfl⟩
    exact writeCodeMap_index dataMap codes keyOrder hkeys kv.1 hk
  rw [hwriter, insertEntries_ok insertErr _ _ writer hins, hfilter]
  refine ⟨rfl, rfl, ?_, ?_⟩
  · exact List.Perm.flatMap_right _
      (List.Perm.filter _ (range_perm dataMap dataOrder [] hnd hdata))
  · intro p hp
    simp only [labelledPairs, List.mem_flatMap, List.mem_filter, List.mem_map] at hp
    obtain ⟨kv, ⟨hkv, hallow⟩, item, hitem, hpe⟩ := hp
    subst hpe
    simp only [GoMap.range, List.mem_map] at hkv
    obtain ⟨k, _, hk⟩ := hkv
    subst hk
    exact ⟨hallow, hitem⟩

/-- C4, on a map with the labels "cn", "us" and "jp" and the allow-list "cn":
only the two "cn" networks are inserted. -/
theorem write_inserts_allowed_pairs_witness :
    (write (fun _ _ _ => none) (fun _ => none) (fun _ _ => none)
        (⟨newWriterOptions Metadata.zero ["cn"], []⟩ : Tree String)
        [("cn", ["1.0.1.0/24", "1.0.2.0/23"]), ("us", ["3.0.0.0/8"]), ("jp", ["1.0.16.0/20"])]
        "geoip-cn.db" ["cn"] ["us", "jp", "cn"] ["jp", "cn", "us"]).writer.inserted =
      [("1.0.1.0/24", "cn"), ("1.0.2.0/23", "cn")] := by
  have h := write_inserts_allowed_pairs (fun _ _ _ => none) (fun _ => none) (fun _ _ => none)
    (⟨newWriterOptions Metadata.zero ["cn"], []⟩ : Tree String)
    [("cn", ["1.0.1.0/24", "1.0.2.0/23"]), ("us", ["3.0.0.0/8"]), ("jp", ["1.0.16.0/20"])]
    "geoip-cn.db" ["cn"] ["us", "jp", "cn"] ["jp", "cn", "us"]
    (by decide) (by decide) (by decide) (by decide)
  rw [h.2.1]
  decide

/-! ## The rule-set emitter -/

theorem foldl_append_cidr {N : Type} (cidrString : N → String) (ipNets : List N) :
    ∀ headlessRule : DefaultHeadlessRule,
      ipNets.foldl (fun headlessRule cidr =>
          { headlessRule with IPCIDR := headlessRule.IPCIDR ++ [cidrString cidr] }) headlessRule =
        { headlessRule with IPCIDR := headlessRule.IPCIDR ++ ipNets.map cidrString } := by
  induction ipNets with
  | nil => intro headlessRule; simp
  | cons n rest ih => intro headlessRule; simp [List.foldl_cons, ih]

theorem emitRuleSets_written {N : Type} (cidrString : N → String)
    (createErr : String → Option Error) (srsWriteErr : String → PlainRuleSet → Option Error)
    (absJoin : String → String → String) (ruleSetOutput : String)
    (entries : List (String × List N)) :
    (emitRuleSets cidrString createErr srsWriteErr absJoin ruleSetOutput entries).1 =
        (entries.take
          (emitRuleSets cidrString createErr srsWriteErr absJoin ruleSetOutput
            entries).1.length).map (ruleSetFile cidrString absJoin ruleSetOutput) ∧
      ((emitRuleSets cidrString createErr srsWriteErr absJoin ruleSetOutput entries).2 = none →
        (emitRuleSets cidrString createErr srsWriteErr absJoin ruleSetOutput entries).1.length =
          entries.length) := by
  induction entries with
  | nil => simp [emitRuleSets]
  | cons kv rest ih =>
    obtain ⟨code, ipNets⟩ := kv
    cases hc : createErr (absJoin ruleSetOutput ("geoip-" ++ code ++ ".srs")) with
    | some e => simp [emitRuleSets, hc]
    | none =>
      cases hw : srsWriteErr (absJoin ruleSetOutput ("geoip-" ++ code ++ ".srs"))
          (buildRuleSet cidrString ipNets) with
      | some e => simp [emitRuleSets, hc, hw]
      | none =>
        simp only [emitRuleSets, hc, hw, List.length_cons, List.take_succ_cons, List.map_cons,
          List.cons.injEq, Nat.add_right_cancel_iff]
        exact ⟨⟨rfl, ih.1⟩, ih.2⟩

theorem emitRuleSets_ok {N : Type} (cidrString : N → String)
    (createErr : String → Option Error) (srsWriteErr : String → PlainRuleSet → Option Error)
    (absJoin : String → String → String) (ruleSetOutput : String)
    (entries : List (String × List N))
    (h : (emitRuleSets cidrString createErr srsWriteErr absJoin ruleSetOutput entries).2 = none) :
    (emitRuleSets cidrString createErr srsWriteErr absJoin ruleSetOutput entries).1 =
      entries.map (ruleSetFile cidrString absJoin ruleSetOutput) := by
  have hw := emitRuleSets_written cidrString createErr srsWriteErr absJoin ruleSetOutput entries
  have hlen := hw.2 h
  have h1 := hw.1
  rw [hlen, List.take_length] at h1
  exact h1

theorem release_ok_ruleSets {N R B : Type} (w : World N R B) (output ruleSetOutput : String)
    (binary : B) (hdl : w.download = .ok binary) :
    (release w output ruleSetOutput).err = none →
      (release w output ruleSetOutput).ruleSets =
        ((parse w.ToLower w.decode (w.FromBytes binary)).countryMap.range
          w.ruleSetOrder []).map (ruleSetFile w.cidrString w.absJoin ruleSetOutput) := by
  unfold release
  simp only [hdl]
  split
  · intro h; cases h
  · split
    · intro h; cases h
    · split
      · intro h; cases h
      · split
        · intro h; cases h
        · split
          · intro h; cases h
          · split
            · intro h; cases h
            · split
              · intro h; cases h
              · rename_i hrs
                intro _
                exact emitRuleSets_ok _ _ _ _ _ _ hrs

/-- C5. The rule set that `release` builds for a label and its networks
holds exactly one rule, of the default rule type, whose CIDR list is the list
of the CIDR strings of the networks, in order and of the same length, with no
other field of the rule set; the rule-set files that the loop of `release`
writes are, entry by entry in visiting order, the file named after the label of
the entry with the rule set built for the networks of the entry, for all the
entries when the loop ends without error; and a run of `release` that returns
no error has handed to the serializer, for the labels of the aggregation map
in visiting order, exactly these files, one for every label of the map with
the rule set of the sequence the map holds for it. The networks "1.2.3.0/24"
and "5.6.7.0/24" give one rule with that CIDR list. -/
theorem release_rule_set_per_label {N R B : Type} (w : World N R B) (output : String)
    (binary : B) (cidrString : N → String)
    (createErr : String → Option Error) (srsWriteErr : String → PlainRuleSet → Option Error)
    (absJoin : String → String → String) (ruleSetOutput : String)
    (entries : List (String × List N)) (ipNets : List N) :
    (buildRuleSet cidrString ipNets).Rules =
        [HeadlessRule.mk RuleTypeDefault { IPCIDR := ipNets.map cidrString } {}] ∧
    (buildRuleSet cidrString ipNets).Rules.length = 1 ∧
    (buildRuleSet cidrString ipNets).Rules.map (fun rule => rule.RuleType) = ["default"] ∧
    (buildRuleSet cidrString ipNets).Rules.map (fun rule => rule.DefaultOptions.IPCIDR.length) =
        [ipNets.length] ∧
    (∀ i : Nat, (buildRuleSet cidrString ipNets).Rules.map
        (fun rule => rule.DefaultOptions.IPCIDR[i]?) = [(ipNets[i]?).map cidrString]) ∧
    (buildRuleSet cidrString ipNets).Rules.map
        (fun rule => ({ rule.DefaultOptions with IPCIDR := [] } : DefaultHeadlessRule)) = [{}] ∧
    (emitRuleSets cidrString createErr srsWriteErr absJoin ruleSetOutput entries).1 =
        (entries.take
          (emitRuleSets cidrString createErr srsWriteErr absJoin ruleSetOutput
            entries).1.length).map (ruleSetFile cidrString absJoin ruleSetOutput) ∧
    ((emitRuleSets cidrString createErr srsWriteErr absJoin ruleSetOutput entries).2 = none →
        (emitRuleSets cidrString createErr srsWriteErr absJoin ruleSetOutput entries).1.length =
          entries.length) ∧
    (buildRuleSet (fun n : String => n) ["1.2.3.0/24", "5.6.7.0/24"]).Rules.map
        (fun rule => rule.DefaultOptions.IPCIDR) = [["1.2.3.0/24", "5.6.7.0/24"]] ∧
    (w.download = .ok binary → (release w output ruleSetOutput).err = none →
      (release w output ruleSetOutput).ruleSets =
          w.ruleSetOrder.map (fun label =>
            (w.absJoin ruleSetOutput ("geoip-" ++ label ++ ".srs"),
              buildRuleSet w.cidrString
                ((parse w.ToLower w.decode (w.FromBytes binary)).countryMap.index label []))) ∧
      (w.ruleSetOrder.Perm (parse w.ToLower w.decode (w.FromBytes binary)).countryMap.keys →
        ∀ kv ∈ (parse w.ToLower w.decode (w.FromBytes binary)).countryMap,
          (w.absJoin ruleSetOutput ("geoip-" ++ kv.1 ++ ".srs"),
              buildRuleSet w.cidrString kv.2) ∈ (release w output ruleSetOutput).ruleSets)) := by
  have hrules : (buildRuleSet cidrString ipNets).Rules =
      [HeadlessRule.mk RuleTypeDefault { IPCIDR := ipNets.map cidrString } {}] := by
    simp [buildRuleSet, foldl_append_cidr]
  have hloop := emitRuleSets_written cidrString createErr srsWriteErr absJoin ruleSetOutput
    entries
  refine ⟨hrules, ?_, ?_, ?_, ?_, ?_, hloop.1, hloop.2, ?_, ?_⟩
  · rw [hrules]; rfl
  · rw [hrules]; rfl
  · rw [hrules]; simp [HeadlessRule.DefaultOptions]
  · intro i; rw [hrules]; simp [HeadlessRule.DefaultOptions]
  · rw [hrules]; rfl
  · decide
  · intro hdl hok
    have hfiles := release_ok_ruleSets w output ruleSetOutput binary hdl hok
    have hshape : (release w output ruleSetOutput).ruleSets =
        w.ruleSetOrder.map (fun label =>
          (w.absJoin ruleSetOutput ("geoip-" ++ label ++ ".srs"),
            buildRuleSet w.cidrString
              ((parse w.ToLower w.decode (w.FromBytes binary)).countryMap.index label []))) := by
      rw [hfiles]
      simp [GoMap.range, ruleSetFile, Function.comp_def]
    refine ⟨hshape, ?_⟩
    intro hperm kv hkv
    have hnd : (parse w.ToLower w.decode (w.FromBytes binary)).countryMap.keys.Nodup := by
      cases hfb : w.FromBytes binary with
      | error e => simp [parse, GoMap.keys]
      | ok db =>
        exact parseLoop_keys_nodup w.ToLower w.decode db.networks IpinfoContry.zero []
          db.networksErr (by simp [GoMap.keys])
    have hidx := GoMap.index_of_mem _ hnd kv.1 kv.2 [] hkv
    have hkey : kv.1 ∈ w.ruleSetOrder :=
      hperm.mem_iff.mpr (List.mem_map.mpr ⟨kv, hkv, rfl⟩)
    rw [hshape]
    refine List.mem_map.mpr ⟨kv.1, hkey, ?_⟩
    simp only [hidx]

/-- C5, on a source whose two networks "1.2.3.0/24" and "5.6.7.0/24" are of
country JP, in a run where every library call succeeds: `release` returns no
error and has written one rule-set file, for "jp", with one rule of the default
type and that CIDR list. -/
theorem release_rule_set_per_label_witness :
    (plainWorld jpDb ["jp"]).download = .ok () ∧
    (release (plainWorld jpDb ["jp"]) "geoip.db" "rule-set").err = none ∧
    (release (plainWorld jpDb ["jp"]) "geoip.db" "rule-set").ruleSets.map
      (fun f => (f.1, f.2.Rules.map (fun rule => (rule.RuleType, rule.DefaultOptions.IPCIDR)))) =
      [("rule-set/geoip-jp.srs", [("default", ["1.2.3.0/24", "5.6.7.0/24"])])] := by
  have h := release_rule_set_per_label (plainWorld jpDb ["jp"]) "geoip.db" ()
    (fun n : String => n) (fun _ => none) (fun _ _ => none)
    (fun dir file => dir ++ "/" ++ file) "rule-set" [("jp", ["1.2.3.0/24", "5.6.7.0/24"])]
    ["1.2.3.0/24", "5.6.7.0/24"]
  have hrel := h.2.2.2.2.2.2.2.2.2 rfl (by decide)
  refine ⟨rfl, by decide, ?_⟩
  rw [hrel.1]
  decide

/-! ## The label vocabulary of the full trie -/

/-- C6. Two runs of `release` on the same source database in which the runtime
visits the keys of the aggregation map in the orders "cn", "us" and "us", "cn":
both succeed and insert the same pairs into the full trie, but the label
vocabulary of the full trie is "cn", "us" in one and "us", "cn" in the other. -/
theorem release_vocabulary_depends_on_visiting_order :
    (parse asciiToLower decodeStruct (.ok twoCountryDb)).countryMap.keys = ["cn", "us"] ∧
    (release (plainWorld twoCountryDb ["cn", "us"]) "geoip.db" "rule-set").err = none ∧
    (release (plainWorld twoCountryDb ["us", "cn"]) "geoip.db" "rule-set").err = none ∧
    (release (plainWorld twoCountryDb ["cn", "us"]) "geoip.db" "rule-set").allCodes =
      ["cn", "us"] ∧
    (release (plainWorld twoCountryDb ["us", "cn"]) "geoip.db" "rule-set").allCodes =
      ["us", "cn"] ∧
    (release (plainWorld twoCountryDb ["cn", "us"]) "geoip.db" "rule-set").tries.map
        (fun f => (f.1, f.2.opts.Languages)) =
      [("geoip.db", ["cn", "us"]), ("geoip-cn.db", ["cn"])] ∧
    (release (plainWorld twoCountryDb ["us", "cn"]) "geoip.db" "rule-set").tries.map
        (fun f => (f.1, f.2.opts.Languages)) =
      [("geoip.db", ["us", "cn"]), ("geoip-cn.db", ["cn"])] ∧
    ((release (plainWorld twoCountryDb ["cn", "us"]) "geoip.db" "rule-set").tries.map
        (fun f => f.2.inserted)).Forall₂ List.Perm
      ((release (plainWorld twoCountryDb ["us", "cn"]) "geoip.db" "rule-set").tries.map
        (fun f => f.2.inserted)) := by
  refine ⟨by decide, by decide, by decide, by decide, by decide, by decide, by decide, ?_⟩
  have h1 : (release (plainWorld twoCountryDb ["cn", "us"]) "geoip.db" "rule-set").tries.map
      (fun f => f.2.inserted) =
      [[("1.0.1.0/24", "cn"), ("3.0.0.0/8", "us")], [("1.0.1.0/24", "cn")]] := by decide
  have h2 : (release (plainWorld twoCountryDb ["us", "cn"]) "geoip.db" "rule-set").tries.map
      (fun f => f.2.inserted) =
      [[("3.0.0.0/8", "us"), ("1.0.1.0/24", "cn")], [("1.0.1.0/24", "cn")]] := by decide
  rw [h1, h2]
  exact List.Forall₂.cons (List.Perm.swap _ _ _)
    (List.Forall₂.cons (List.Perm.refl _) List.Forall₂.nil)

/-- C7. The label list that `release` hands to `newWriter` is the list of the
keys of the aggregation map in the order in which the runtime visits them, for
every map and order; it is never sorted before the trie is made, since
`write` sorts a list of its own. On a source with the labels "cn" and "us"
visited as "us", "cn" the vocabulary of the full trie file is "us", "cn", which
is not in ascending order. -/
theorem release_vocabulary_in_visiting_order {N : Type} (countryMap : GoMap (List N))
    (order : List String) :
    collectCodes countryMap order = order ∧
    (release (plainWorld twoCountryDb ["us", "cn"]) "geoip.db" "rule-set").err = none ∧
    ["us", "cn"].Perm (parse asciiToLower decodeStruct (.ok twoCountryDb)).countryMap.keys ∧
    (release (plainWorld twoCountryDb ["us", "cn"]) "geoip.db" "rule-set").tries.map
        (fun f => (f.1, f.2.opts.Languages)) =
      [("geoip.db", ["us", "cn"]), ("geoip-cn.db", ["cn"])] ∧
    sortStrings ["us", "cn"] = ["cn", "us"] ∧
    stringLess "cn".data "us".data = true := by
  refine ⟨?_, by decide, by decide, by decide, by decide, by decide⟩
  simp [collectCodes, foldl_append_fst, range_keys]

/-! ## The record variable of `parse` -/

/-- C8. With the struct decoding of the maxminddb reader, the network
"10.0.0.0/8", whose raw record stores neither a country nor a continent, is put
under "us" when it follows a record of country US, and is skipped when the same
raw record comes first: the record variable still holds the country of the
network before it. -/
theorem parse_label_depends_on_preceding_record :
    sparseDb.networks.drop 1 = sparseTailDb.networks ∧
    (parse asciiToLower decodeStruct (.ok sparseDb)).err = none ∧
    (parse asciiToLower decodeStruct (.ok sparseTailDb)).err = none ∧
    (parse asciiToLower decodeStruct (.ok sparseDb)).countryMap =
      [("us", ["3.0.0.0/8", "10.0.0.0/8"])] ∧
    (parse asciiToLower decodeStruct (.ok sparseTailDb)).countryMap = [] ∧
    decodedRecords decodeStruct IpinfoContry.zero sparseDb.networks =
      [("3.0.0.0/8", ⟨"", "", "US", ""⟩), ("10.0.0.0/8", ⟨"", "", "US", ""⟩)] := by
  refine ⟨by decide, by decide, by decide, by decide, by decide, by decide⟩

/-! ## Load-and-extend (`open`) -/

theorem Contains_iff (arr : List String) (target : String) :
    Contains arr target = true ↔ target ∈ arr := by
  induction arr with
  | nil => simp [Contains]
  | cons x rest ih =>
    by_cases h : target = x
    · simp [Contains, h]
    · simp [Contains, h, ih]

theorem Filter_eq_filter (arr : List String) (block : String → Bool) :
    Filter arr block = arr.filter block := by
  have h : ∀ (l acc : List String),
      l.foldl (fun retArr it => if block it then retArr ++ [it] else retArr) acc =
        acc ++ l.filter block := by
    intro l
    induction l with
    | nil => intro acc; simp
    | cons x rest ih =>
      intro acc
      by_cases hx : block x = true
      · simp [List.foldl_cons, List.filter_cons, hx, ih]
      · simp [List.foldl_cons, List.filter_cons, hx, ih]
  simpa [Filter] using h arr []

theorem openLanguages_eq (languages codes : List String) :
    openLanguages languages codes =
      languages ++ codes.filter (fun it => decide (it ∉ languages)) := by
  unfold openLanguages
  rw [Filter_eq_filter]
  congr 1
  apply List.filter_congr
  intro it _
  by_cases h : it ∈ languages
  · simp [h, (Contains_iff languages it).mpr h]
  · have : Contains languages it = false := by
      cases hc : Contains languages it with
      | false => rfl
      | true => exact absurd ((Contains_iff languages it).mp hc) h
    simp [h, this]

/-- C9. When the file at `path` opens and carries the type tag "sing-geoip",
`open` calls the loader once, with the vocabulary made of the stored vocabulary
followed by the requested labels that are not in it, in their order in `codes`:
every stored label keeps its position, every requested label is present, every
label of the result is a stored or a requested one, and the result has no
duplicates when neither list has. -/
theorem open_extends_vocabulary {N : Type} (Open : String → Except Error Metadata)
    (Load : String → Options → Except Error (Tree N)) (path : String) (codes : List String)
    (metadata : Metadata) (hopen : Open path = .ok metadata)
    (htag : metadata.DatabaseType = "sing-geoip") :
    («open» Open Load path codes).loadCalls.map (fun call => (call.1, call.2.Languages)) =
        [(path, metadata.Languages ++ codes.filter (fun it => decide (it ∉ metadata.Languages)))] ∧
    openLanguages metadata.Languages codes =
        metadata.Languages ++ codes.filter (fun it => decide (it ∉ metadata.Languages)) ∧
    (∀ i : Nat, i < metadata.Languages.length →
        (openLanguages metadata.Languages codes)[i]? = metadata.Languages[i]?) ∧
    (∀ code ∈ codes, code ∈ openLanguages metadata.Languages codes) ∧
    (∀ label ∈ openLanguages metadata.Languages codes,
        label ∈ metadata.Languages ∨ label ∈ codes) ∧
    (metadata.Languages.Nodup → codes.Nodup →
        (openLanguages metadata.Languages codes).Nodup) := by
  have heq := openLanguages_eq metadata.Languages codes
  refine ⟨?_, heq, ?_, ?_, ?_, ?_⟩
  · simp [«open», hopen, htag, heq]
  · intro i hi
    rw [heq, List.getElem?_append_left hi]
  · intro code hcode
    rw [heq]
    by_cases h : code ∈ metadata.Languages
    · exact List.mem_append_left _ h
    · exact List.mem_append_right _ (List.mem_filter.mpr ⟨hcode, by simpa using h⟩)
  · intro label hlabel
    rw [heq] at hlabel
    rcases List.mem_append.mp hlabel with h | h
    · exact Or.inl h
    · exact Or.inr (List.mem_filter.mp h).1
  · intro hold hcodes
    rw [heq]
    refine List.Nodup.append hold (hcodes.filter _) ?_
    intro x hx hxf
    have := (List.mem_filter.mp hxf).2
    simp only [decide_eq_true_eq] at this
    exact this hx

/-- C9, on the stored vocabulary "cn", "us" and the requested labels "us",
"jp": the loader gets "cn", "us", "jp". -/
theorem open_extends_vocabulary_witness :
    («open» (fun _ => .ok ⟨"sing-geoip", ["cn", "us"], 6, 24⟩)
        (fun _ opts => .ok (⟨opts, []⟩ : Tree String)) "geoip.db" ["us", "jp"]).loadCalls.map
      (fun call => (call.1, call.2.Languages)) = [("geoip.db", ["cn", "us", "jp"])] := by
  have h := open_extends_vocabulary (fun _ => .ok ⟨"sing-geoip", ["cn", "us"], 6, 24⟩)
    (fun _ opts => .ok (⟨opts, []⟩ : Tree String)) "geoip.db" ["us", "jp"]
    ⟨"sing-geoip", ["cn", "us"], 6, 24⟩ rfl rfl
  rw [h.1]
  decide

/-- C10. When the file at `path` opens, `open` returns an error exactly when
the type tag of the file is not "sing-geoip" or the loader reports an error;
with another tag the error is "invalid sing-geoip database" and the loader is
not called, so the file is not loaded and no vocabulary is extended; with the
tag "sing-geoip" the result is the result of the loader. -/
theorem open_rejects_foreign_database {N : Type} (Open : String → Except Error Metadata)
    (Load : String → Options → Except Error (Tree N)) (path : String) (codes : List String)
    (metadata : Metadata) (hopen : Open path = .ok metadata) :
    ((∃ err, («open» Open Load path codes).result = .error err) ↔
        (metadata.DatabaseType ≠ "sing-geoip" ∨
          ∃ err, Load path { Languages := openLanguages metadata.Languages codes,
                             Inserter := InserterFunc.ReplaceWith } = .error err)) ∧
    (metadata.DatabaseType ≠ "sing-geoip" →
        («open» Open Load path codes).result = .error "invalid sing-geoip database" ∧
        («open» Open Load path codes).loadCalls = []) ∧
    (metadata.DatabaseType = "sing-geoip" →
        («open» Open Load path codes).result =
          Load path { Languages := openLanguages metadata.Languages codes,
                      Inserter := InserterFunc.ReplaceWith }) := by
  by_cases htag : metadata.DatabaseType = "sing-geoip"
  · simp [«open», hopen, htag]
  · simp [«open», hopen, htag]

/-- C10, on a file with the type tag "GeoLite2-Country": an error and no call
of the loader, although the loader would succeed. -/
theorem open_rejects_foreign_database_witness :
    («open» (fun _ => .ok ⟨"GeoLite2-Country", ["en"], 6, 24⟩)
        (fun _ opts => .ok (⟨opts, []⟩ : Tree String)) "geoip.db" ["cn"]).result =
      .error "invalid sing-geoip database" ∧
    («open» (fun _ => .ok ⟨"GeoLite2-Country", ["en"], 6, 24⟩)
        (fun _ opts => .ok (⟨opts, []⟩ : Tree String)) "geoip.db" ["cn"]).loadCalls = [] :=
  (open_rejects_foreign_database (fun _ => .ok ⟨"GeoLite2-Country", ["en"], 6, 24⟩)
    (fun _ opts => .ok (⟨opts, []⟩ : Tree String)) "geoip.db" ["cn"]
    ⟨"GeoLite2-Country", ["en"], 6, 24⟩ rfl).2.1 (by decide)

end SingGeoip
